import Mathlib

/-!
The client `ubersmithgo`: the response navigator and the API caller.

A shallow embedding of `ubersmithgo.go`.  The Go functions `toInt`,
`Response.Key`, `Response.Load` and `API.Call` are translated statement by
statement.  The standard-library functions they call (`strings.Split`,
`strconv.Atoi`, `encoding/json`, `net/url`) are not part of the repository;
they are modelled here from the Go standard library, each in its own
definition with the Go name it stands for.

Go's `int` is taken to be 64 bits wide and is modelled by `Int`.
-/

set_option autoImplicit false

namespace Ubersmithgo

/-! ## JSON values -/

/-- A JSON value, which is also the shape of the tree `encoding/json` builds
when it decodes into `interface{}`: `nil` for `null` (Go's nil interface),
`bool`, a number (carried by its literal; Go stores a `float64`, which the
navigator never inspects), `string`, `[]interface{}` and
`map[string]interface{}`.  An object keeps its members in document order; the
Go map built from it is read through `mapIndex`. -/
inductive Value where
  | nil
  | bool (b : Bool)
  | number (lit : String)
  | string (s : String)
  | array (xs : List Value)
  | object (members : List (String × Value))

instance : Inhabited Value := ⟨Value.nil⟩

/-- A byte string as `encoding/json` sees it: of length zero (`empty`), not a
JSON text (`invalid`), or the text of a JSON value.  This is the model of
`json.RawMessage` and of an HTTP body. -/
inductive RawMessage where
  | empty
  | invalid
  | text (v : Value)

/-- Response handling response from Ubersmith (the Go struct `Response`). -/
structure Response where
  Status : Bool := false
  ErrorCode : Int := 0
  ErrorMesssage : String := ""
  RawData : RawMessage := RawMessage.empty

/-- A Go run-time panic. -/
inductive Panic where
  | indexOutOfRange
  deriving DecidableEq, Repr

/-! ## strconv -/

/-- The two kinds of error `strconv` reports (`ErrSyntax`, `ErrRange`). -/
inductive NumError where
  | invalidDigits
  | outOfRange
  deriving DecidableEq, Repr

/-- The width of Go's `int` (`strconv.IntSize`). -/
def intSize : Nat := 64

/-- The `maxVal` of `strconv.ParseUint` for a 64-bit result. -/
def maxVal : Nat := 2 ^ intSize - 1

/-- The `cutoff` of `strconv.ParseUint` in base 10: the smallest number whose
tenfold exceeds the largest `uint64`. -/
def cutoff10 : Nat := (2 ^ 64 - 1) / 10 + 1

/-- The digit loop of `strconv.ParseUint(s, 10, 0)`, with `n` the number read
so far.  A byte that is not a decimal digit ends the loop with a syntax error
and value 0; an overflow ends it at once with a range error and `maxVal`.
The arithmetic is that of `uint64`. -/
def parseUintLoop : List Char → Nat → Nat × Option NumError
  | [], n => (n, none)
  | c :: cs, n =>
    if '0' ≤ c ∧ c ≤ '9' then
      let d := c.toNat - '0'.toNat
      if n ≥ cutoff10 then (maxVal, some NumError.outOfRange)
      else
        let n10 := (n * 10) % 2 ^ 64
        let n1 := (n10 + d) % 2 ^ 64
        if n1 < n10 ∨ n1 > maxVal then (maxVal, some NumError.outOfRange)
        else parseUintLoop cs n1
    else (0, some NumError.invalidDigits)

/-- The Go function `strconv.ParseUint(s, 10, 0)`. -/
def parseUint (s : List Char) : Nat × Option NumError :=
  match s with
  | [] => (0, some NumError.invalidDigits)
  | _ => parseUintLoop s 0

/-- The Go function `strconv.ParseInt(s, 10, 0)`: an optional sign, then
`ParseUint`; a syntax error gives 0, a value out of range gives the nearest
bound of the type together with a range error. -/
def parseInt (s : List Char) : Int × Option NumError :=
  match s with
  | [] => (0, some NumError.invalidDigits)
  | c :: cs =>
    let neg := decide (c = '-')
    let digits := if c = '+' ∨ c = '-' then cs else c :: cs
    match parseUint digits with
    | (_, some NumError.invalidDigits) => (0, some NumError.invalidDigits)
    | (un, _) =>
      let bound : Nat := 2 ^ (intSize - 1)
      if !neg ∧ un ≥ bound then ((bound : Int) - 1, some NumError.outOfRange)
      else if neg ∧ un > bound then (-(bound : Int), some NumError.outOfRange)
      else (if neg then -(un : Int) else (un : Int), none)

/-- The Go function `strconv.Atoi`, which is `ParseInt(s, 10, 0)` converted to
`int`. -/
def Atoi (s : String) : Int × Option NumError := parseInt s.data

/-- The Go function `toInt`: the value `strconv.Atoi` returns, its error
dropped. -/
def toInt (num : String) : Int := (Atoi num).1

/-! ## strings.Split -/

/-- The loop of `strings.Split(s, ".")`: `acc` holds, reversed, the bytes of
the piece being read. -/
def splitLoop : List Char → List Char → List String
  | [], acc => [String.mk acc.reverse]
  | c :: cs, acc =>
    if c = '.' then String.mk acc.reverse :: splitLoop cs []
    else splitLoop cs (c :: acc)

/-- The Go call `strings.Split(s, ".")`. -/
def stringsSplit (s : String) : List String := splitLoop s.data []

/-! ## The navigator -/

/-- Reading a Go `map[string]interface{}` that was filled from the members
`m` in order: the value stored last under `k`, and nil when there is none. -/
def mapIndex (m : List (String × Value)) (k : String) : Value :=
  m.foldl (fun cur kv => if kv.1 = k then kv.2 else cur) Value.nil

/-- The members of `d` after `d := make(map[string]interface{})` and
`json.Unmarshal(r.RawData, &d)`: those of the object when the fragment is a
JSON object; nothing otherwise (`null` sets `d` to the nil map, and on any
error, which `Key` ignores, `d` stays empty). -/
def unmarshalMap : RawMessage → List (String × Value)
  | RawMessage.text (Value.object m) => m
  | _ => []

/-- The Go index expression `xs[k]` on a slice, which panics outside
`0 ≤ k < len(xs)`. -/
def sliceIndex (xs : List Value) (k : Int) : Except Panic Value :=
  if 0 ≤ k then
    match xs[k.toNat]? with
    | some v => Except.ok v
    | none => Except.error Panic.indexOutOfRange
  else Except.error Panic.indexOutOfRange

/-- One turn of the loop of `Key`: the type switch on `res`.  The switch has
two cases and no default, so any other value leaves `res` as it is. -/
def keyStep (res : Value) (key : String) : Except Panic Value :=
  match res with
  | Value.object m => Except.ok (mapIndex m key)
  | Value.array xs =>
    let length : Int := xs.length
    let k := toInt key
    if length > k then sliceIndex xs k else Except.ok Value.nil
  | other => Except.ok other

/-- The loop `for i := 1; i < len(keys); i++` of `Key`, over `keys[1:]`. -/
def keyLoop : Value → List String → Except Panic Value
  | res, [] => Except.ok res
  | res, k :: ks =>
    match keyStep res k with
    | Except.ok res1 => keyLoop res1 ks
    | Except.error p => Except.error p

/-- The Go method `Response.Key`: retrieve the data from the JSON API response
by key. -/
def Response.Key (r : Response) (key : String) : Except Panic Value :=
  let d := unmarshalMap r.RawData
  let keys := stringsSplit key
  match keys with
  | [] => Except.error Panic.indexOutOfRange
  | k0 :: rest => keyLoop (mapIndex d k0) rest

/-! ## net/url -/

/-- The bytes of a Go string (UTF-8), as numbers. -/
def utf8Bytes (s : String) : List Nat :=
  s.data.flatMap (fun c => (String.utf8EncodeChar c).map UInt8.toNat)

/-- The Go function `url.shouldEscape(c, encodeQueryComponent)`: letters,
digits and the marks `-`, `_`, `.`, `~` stay; every other byte is escaped. -/
def shouldEscape (c : Nat) : Bool :=
  if ('a'.toNat ≤ c ∧ c ≤ 'z'.toNat) ∨ ('A'.toNat ≤ c ∧ c ≤ 'Z'.toNat) ∨
      ('0'.toNat ≤ c ∧ c ≤ '9'.toNat) then false
  else if c = '-'.toNat ∨ c = '_'.toNat ∨ c = '.'.toNat ∨ c = '~'.toNat then false
  else true

/-- The table `upperhex` of `net/url`. -/
def upperhex : List Char := "0123456789ABCDEF".data

/-- The Go function `url.QueryEscape`: a space becomes `+`, a byte that must
be escaped becomes `%XX`, any other byte is copied. -/
def QueryEscape (s : String) : String :=
  String.mk ((utf8Bytes s).flatMap (fun c =>
    if c = ' '.toNat then ['+']
    else if shouldEscape c then ['%', upperhex.getD (c / 16) '0', upperhex.getD (c % 16) '0']
    else [Char.ofNat c]))

/-- The Go type `url.Values` (`map[string][]string`), as its entries. -/
abbrev Values := List (String × List String)

/-- The Go method `Values.Set`: the key gets the single value, replacing what
it had. -/
def Values.Set (v : Values) (key value : String) : Values :=
  (key, [value]) :: v.filter (fun e => e.1 ≠ key)

/-- The Go method `Values.Encode`: the entries in the order of their keys,
each value written as `key=value`, both escaped, with `&` between them. -/
def Values.Encode (v : Values) : String :=
  let sorted := v.insertionSort (fun e1 e2 => e1.1 ≤ e2.1)
  let pairs := sorted.flatMap (fun e => e.2.map (fun x => QueryEscape e.1 ++ "=" ++ QueryEscape x))
  "&".intercalate pairs

/-! ## encoding/json: decoding into a struct -/

/-- The errors of `json.Unmarshal`: the text is not JSON (`SyntaxError`), or a
JSON value does not fit the Go type it is decoded into
(`UnmarshalTypeError`). -/
inductive JsonError where
  | badText
  | typeMismatch
  deriving DecidableEq, Repr

/-- The value of a struct field, by the Go type of the field: `bool`, `int`,
`string`, `interface{}` (holding a decoded tree) or `json.RawMessage`. -/
inductive FieldValue where
  | bool (b : Bool)
  | int (n : Int)
  | string (s : String)
  | iface (v : Value)
  | raw (m : RawMessage)

/-- A struct field as `encoding/json` sees it: its JSON name, whether that
name comes from a `json:"..."` tag, and its value. -/
structure Field where
  name : String
  tagged : Bool
  value : FieldValue

/-- What identifies a field for `encoding/json`: its JSON name and whether it
is tagged. -/
def Field.label (f : Field) : String × Bool := (f.name, f.tagged)

/-- The rule of `typeFields` and `dominantField` of `encoding/json` among the
fields of one struct, given by their labels `ls`: a field is kept when no
other field has its JSON name, or when it is the only tagged one among the
fields of that name; the fields of a name shared otherwise are all ignored. -/
def dominant (ls : List (String × Bool)) (l : String × Bool) : Bool :=
  let same := ls.filter (fun m => m.1 = l.1)
  if same.length = 1 then true
  else l.2 && decide ((same.filter (fun m => m.2)).length = 1)

/-- Decoding one JSON value into a struct field (`literalStore`, `array`,
`object` of `encoding/json`): the new value of the field, and whether an
`UnmarshalTypeError` was recorded.  `null` leaves a `bool`, `int` or `string`
as it is; a value of the wrong type leaves the field as it is and records the
error; a number fits an `int` when `strconv.ParseInt` accepts its literal; an
`interface{}` and a `json.RawMessage` take any value. -/
def storeValue : FieldValue → Value → FieldValue × Bool
  | FieldValue.bool _, Value.bool b => (FieldValue.bool b, false)
  | FieldValue.bool b, Value.nil => (FieldValue.bool b, false)
  | FieldValue.bool b, _ => (FieldValue.bool b, true)
  | FieldValue.int n, Value.number lit =>
    match parseInt lit.data with
    | (m, none) => (FieldValue.int m, false)
    | _ => (FieldValue.int n, true)
  | FieldValue.int n, Value.nil => (FieldValue.int n, false)
  | FieldValue.int n, _ => (FieldValue.int n, true)
  | FieldValue.string _, Value.string s => (FieldValue.string s, false)
  | FieldValue.string s, Value.nil => (FieldValue.string s, false)
  | FieldValue.string s, _ => (FieldValue.string s, true)
  | FieldValue.iface _, v => (FieldValue.iface v, false)
  | FieldValue.raw _, v => (FieldValue.raw (RawMessage.text v), false)

/-- The folding `encoding/json` applies to a name for its case-insensitive
match, on one character: an ASCII letter goes to upper case, and the two
non-ASCII characters that fold to an ASCII letter (U+017F, U+212A) go to `S`
and `K`.  This is the library's folding whenever the struct's field names are
ASCII. -/
def foldRune (c : Char) : Char :=
  if 'a' ≤ c ∧ c ≤ 'z' then Char.ofNat (c.toNat - 32)
  else if c = Char.ofNat 0x17F then 'S'
  else if c = Char.ofNat 0x212A then 'K'
  else c

/-- The function `foldName` of `encoding/json` (for ASCII field names). -/
def foldName (s : String) : String := String.mk (s.data.map foldRune)

/-- Decoding the value `x` into the first field that satisfies `p`; without
such a field nothing changes. -/
def storeAt (p : Field → Bool) : List Field → Value → List Field × Bool
  | [], _ => ([], false)
  | f :: fs, x =>
    if p f then
      let (v, e) := storeValue f.value x
      ({ f with value := v } :: fs, e)
    else
      let (fs1, e) := storeAt p fs x
      (f :: fs1, e)

/-- Decoding one member of a JSON object into a struct: among the fields the
library keeps (`dominant`), the field with exactly the member's name when
there is one, else the first field whose name is the same after folding
(`fold` is the library's case folding); a member no field answers to is
skipped. -/
def decodeMember (fold : String → String) (fs : List Field) (kv : String × Value) :
    List Field × Bool :=
  let ls := fs.map Field.label
  if fs.any (fun f => dominant ls f.label && decide (f.name = kv.1))
  then storeAt (fun f => dominant ls f.label && decide (f.name = kv.1)) fs kv.2
  else storeAt (fun f => dominant ls f.label && decide (fold f.name = fold kv.1)) fs kv.2

/-- Decoding the members of a JSON object into a struct, one after the other;
the flag tells whether some member recorded an `UnmarshalTypeError`. -/
def decodeObject (fold : String → String) :
    List Field → List (String × Value) → List Field × Bool
  | fs, [] => (fs, false)
  | fs, kv :: ms =>
    let (fs1, e1) := decodeMember fold fs kv
    let (fs2, e2) := decodeObject fold fs1 ms
    (fs2, e1 || e2)

/-- The Go call `json.Unmarshal(data, &s)` for a struct `s` with the fields
`fs`: a text that is not JSON is refused before anything is stored; `null`
has no effect; an object is decoded member by member, and a type error in one
member does not stop the others; any other value is a type error. -/
def unmarshalStruct (fold : String → String) (data : RawMessage) (fs : List Field) :
    List Field × Option JsonError :=
  match data with
  | RawMessage.empty => (fs, some JsonError.badText)
  | RawMessage.invalid => (fs, some JsonError.badText)
  | RawMessage.text Value.nil => (fs, none)
  | RawMessage.text (Value.object ms) =>
    let (fs1, e) := decodeObject fold fs ms
    (fs1, if e then some JsonError.typeMismatch else none)
  | RawMessage.text _ => (fs, some JsonError.typeMismatch)

/-- The Go call `json.Unmarshal(data, &x)` for a variable `x` of type
`interface{}` that holds no pointer: any JSON value is stored in `x`, so the
only error is that of a text that is not JSON. -/
def unmarshalIface (data : RawMessage) : Option JsonError :=
  match data with
  | RawMessage.empty => some JsonError.badText
  | RawMessage.invalid => some JsonError.badText
  | RawMessage.text _ => none

/-- The fields of the Go struct `Response`, with their `json` tags. -/
def Response.fields (r : Response) : List Field :=
  [⟨"status", true, FieldValue.bool r.Status⟩, ⟨"error_code", true, FieldValue.int r.ErrorCode⟩,
   ⟨"error_message", true, FieldValue.string r.ErrorMesssage⟩,
   ⟨"data", true, FieldValue.raw r.RawData⟩]

/-- The struct `Response` read back from its fields. -/
def Response.ofFields (r : Response) : List Field → Response
  | [⟨_, _, FieldValue.bool b⟩, ⟨_, _, FieldValue.int n⟩, ⟨_, _, FieldValue.string s⟩,
      ⟨_, _, FieldValue.raw m⟩] =>
    { Status := b, ErrorCode := n, ErrorMesssage := s, RawData := m }
  | _ => r

/-- The Go call `json.Unmarshal(result, &r)` for `r` of type `Response`. -/
def unmarshalResponse (result : RawMessage) (r : Response) : Response × Option JsonError :=
  let (fs, e) := unmarshalStruct foldName result r.fields
  (r.ofFields fs, e)

/-! ## encoding/json: serialising the parameters -/

/-- A Go value stored in a `Request`, as `json.Marshal` sees it: a value it
serialises to the JSON value `v`, or a value it refuses with the error `err`
(a NaN or an infinity, a channel, a function). -/
inductive Param where
  | json (v : Value)
  | unsupported (err : String)

/-- Request convenient way to define map[string]string (the Go type
`Request`, which is `map[string]interface{}`): the nil map, or the entries of
the map. -/
inductive Request where
  | nilMap
  | entries (es : List (String × Param))

/-- The members `json.Marshal` writes for the entries of a map, taken in the
order given; the first value it refuses ends the serialisation with its
error. -/
def marshalEntries : List (String × Param) → Except String (List (String × Value))
  | [] => Except.ok []
  | (k, Param.json v) :: es =>
    match marshalEntries es with
    | Except.ok ms => Except.ok ((k, v) :: ms)
    | Except.error err => Except.error err
  | (_, Param.unsupported err) :: _ => Except.error err

/-- The Go call `json.Marshal(params)`: `null` for the nil map, else the
object of the entries in the order of their keys, or the error of the first
value that cannot be serialised.  The bytes are given as `encoding/json`
reads them back. -/
def Marshal (params : Request) : Except String RawMessage :=
  match params with
  | Request.nilMap => Except.ok (RawMessage.text Value.nil)
  | Request.entries es =>
    match marshalEntries (es.insertionSort (fun e1 e2 => e1.1 ≤ e2.1)) with
    | Except.ok ms => Except.ok (RawMessage.text (Value.object ms))
    | Except.error err => Except.error err

/-! ## The API caller -/

/-- API client structure (the Go struct `API`). -/
structure API where
  Host : String
  User : String
  Token : String
  DebugOn : Bool

/-- New creating new API client instance. -/
def New (host : String) (user : String) (token : String) (debug : Bool) : API :=
  { Host := host, User := user, Token := token, DebugOn := debug }

/-- An `http.Request` as far as `Call` sets it. -/
structure HttpRequest where
  Method : String
  URL : String
  Body : RawMessage
  Header : List (String × String)
  BasicAuth : Option (String × String)

/-- An `http.Response` as far as `Call` reads it: what `ioutil.ReadAll` gives
on its body, the bytes or an error. -/
structure HttpResponse where
  Body : Except String RawMessage

/-- The collaborators of `Call` outside the repository, each by its outcome:
the check of the URL inside `http.NewRequest` (the text of the error, if any)
and the exchange `c.Do(req)`.  Errors are carried by their text
(`err.Error()`). -/
structure Env where
  ParseURL : String → Option String
  Do : HttpRequest → Except String HttpResponse

/-- The Go function `http.NewRequest`. -/
def NewRequest (parseURL : String → Option String) (method url : String)
    (body : RawMessage) : Except String HttpRequest :=
  match parseURL url with
  | some err => Except.error err
  | none => Except.ok { Method := method, URL := url, Body := body, Header := [],
                        BasicAuth := none }

/-- The request `Call` builds and hands to the client (lines 54 to 73 of the
source): the URL, the body, `http.NewRequest`, and on success the content type
and the credentials.  The `err` of `json.Marshal` (line 58) is overwritten by
that of `http.NewRequest` (line 60) before it is looked at, so when `Marshal`
fails the body is the nil slice and the request is built all the same. -/
def API.buildRequest (a : API) (env : Env) (method : String) (params : Request) :
    Except String HttpRequest :=
  let data : Values := Values.Set [] "method" method
  let pageURL := a.Host ++ "?" ++ Values.Encode data
  let body := match Marshal params with
    | Except.ok b => b
    | Except.error _ => RawMessage.empty
  match NewRequest env.ParseURL "POST" pageURL body with
  | Except.error err => Except.error err
  | Except.ok req =>
    Except.ok { req with Header := [("Content-Type", "application/json")],
                         BasicAuth := some (a.User, a.Token) }

/-- The envelope `Call` returns on a local failure. -/
def failure (err : String) : Response :=
  { Status := false, ErrorCode := 500, ErrorMesssage := err, RawData := RawMessage.empty }

/-- The Go method `API.Call`: the method for calling ubersmith API.  The calls
of `a.debug` only write to the log and are left out. -/
def API.Call (a : API) (env : Env) (method : String) (params : Request) : Response :=
  let r : Response := {}
  match a.buildRequest env method params with
  | Except.error err => failure err
  | Except.ok req =>
    match env.Do req with
    | Except.error err => failure err
    | Except.ok res =>
      match res.Body with
      | Except.error err => failure err
      | Except.ok result => (unmarshalResponse result r).1

/-! ## Load -/

/-- What a caller passes to `Load` as `i`: a pointer to a struct, as in
`r.Load(&cl)`, or the struct itself, as in `r.Load(cl)`.  Either way `fields`
are the fields of the caller's struct. -/
inductive Destination where
  | pointer (fields : List Field)
  | byValue (fields : List Field)

/-- The Go method `Response.Load`, which is `json.Unmarshal(r.RawData, &i)`:
when the interface `i` holds a pointer to a struct, `Unmarshal` follows it and
decodes into the struct; when `i` holds the struct itself, `Unmarshal` stores
the decoded value in the local variable `i` and the caller's struct is not
touched.  The result is the caller's struct afterwards and the error
returned. -/
def Response.Load (fold : String → String) (r : Response) (i : Destination) :
    List Field × Option JsonError :=
  match i with
  | Destination.pointer fs => unmarshalStruct fold r.RawData fs
  | Destination.byValue fs => (fs, unmarshalIface r.RawData)

/-! ## Notions used in the statements -/

/-- The JSON value `x` fits a field of the Go type of `v`: `null` fits every
field; a `bool` field takes a boolean, a `string` field a string, an `int`
field a number whose literal is a base-10 integer within the range of the
type; an `interface{}` and a `json.RawMessage` field take any value. -/
def fits : FieldValue → Value → Bool
  | _, Value.nil => true
  | FieldValue.bool _, Value.bool _ => true
  | FieldValue.int _, Value.number lit => (parseInt lit.data).2.isNone
  | FieldValue.string _, Value.string _ => true
  | FieldValue.iface _, _ => true
  | FieldValue.raw _, _ => true
  | _, _ => false

/-- The position of the first label that satisfies `q`. -/
def labelIndex (q : String × Bool → Bool) : List (String × Bool) → Option Nat
  | [] => none
  | l :: ls => if q l then some 0 else (labelIndex q ls).map (fun n => n + 1)

/-- The position of the field a member named `key` is decoded into, if any:
among the fields the library keeps, the field with exactly this name, else
the first field with this name after folding. -/
def fieldFor (fold : String → String) (fs : List Field) (key : String) : Option Nat :=
  let ls := fs.map Field.label
  if ls.any (fun l => dominant ls l && decide (l.1 = key))
  then labelIndex (fun l => dominant ls l && decide (l.1 = key)) ls
  else labelIndex (fun l => dominant ls l && decide (fold l.1 = fold key)) ls

/-- The value of a field after the members `ms` were decoded into it one
after the other. -/
def storeAll (v : FieldValue) (ms : List (String × Value)) : FieldValue :=
  ms.foldl (fun cur kv => (storeValue cur kv.2).1) v

/-- The Go type of a field, numbered. -/
def FieldValue.kind : FieldValue → Nat
  | FieldValue.bool _ => 0
  | FieldValue.int _ => 1
  | FieldValue.string _ => 2
  | FieldValue.iface _ => 3
  | FieldValue.raw _ => 4

/-! ## Examples -/

/-- A client for the examples. -/
def sampleAPI : API := New "http://host/api/2.0/" "user" "token" false

/-- A world in which the exchange succeeds and the body read is `body`. -/
def envWithBody (body : RawMessage) : Env :=
  { ParseURL := fun _ => none, Do := fun _ => Except.ok { Body := Except.ok body } }

/-- A world in which the exchange fails with `connection refused`. -/
def envRefused : Env :=
  { ParseURL := fun _ => none, Do := fun _ => Except.error "connection refused" }

/-- The body `{"status":true,"error_code":"oops","error_message":"m","data":{"a":5}}`, in
which `error_code` is a string. -/
def wrongTypeBody : RawMessage :=
  RawMessage.text (Value.object [("status", Value.bool true),
    ("error_code", Value.string "oops"), ("error_message", Value.string "m"),
    ("data", Value.object [("a", Value.number "5")])])

/-- The body of the envelope of the examples. -/
def sampleBody : RawMessage :=
  RawMessage.text (Value.object [("status", Value.bool true),
    ("error_code", Value.number "0"), ("error_message", Value.string ""),
    ("data", Value.object [("a", Value.object
      [("b", Value.array [Value.number "10", Value.number "20", Value.number "30"])])])])

/-- The parameters `Request{"client_id": "1000"}`. -/
def clientParams : Request :=
  Request.entries [("client_id", Param.json (Value.string "1000"))]

/-- The parameters `Request{"x": math.NaN()}`, which `json.Marshal` refuses. -/
def nanParams : Request :=
  Request.entries [("x", Param.unsupported "json: unsupported value: NaN")]

/-- The destination `struct { Name string }` with `Name` mapped from `name`,
at its default. -/
def nameStruct : List Field := [⟨"name", true, FieldValue.string ""⟩]

/-- The payload `{"name":"Alice","age":30}`. -/
def aliceData : RawMessage :=
  RawMessage.text (Value.object [("name", Value.string "Alice"), ("age", Value.number "30")])

/-- The payload `{"name":5}`, whose member does not fit a string. -/
def numberNameData : RawMessage :=
  RawMessage.text (Value.object [("name", Value.number "5")])

/-- The payload `{"a":{"b":[10,20,30]}}`. -/
def sampleData : RawMessage :=
  RawMessage.text (Value.object [("a", Value.object
    [("b", Value.array [Value.number "10", Value.number "20", Value.number "30"])])])

/-- The envelope `{"status":true,"error_code":0,"error_message":"","data":{"a":{"b":[10,20,30]}}}`. -/
def sampleResponse : Response :=
  { Status := true, ErrorCode := 0, ErrorMesssage := "", RawData := sampleData }


/-- The payload `{"a":[1]}`. -/
def oneElementData : RawMessage :=
  RawMessage.text (Value.object [("a", Value.array [Value.number "1"])])

/-- The payload `{"a":5}`. -/
def scalarData : RawMessage :=
  RawMessage.text (Value.object [("a", Value.number "5")])

/-- The payload `[10,20]`, which is not an object. -/
def arrayData : RawMessage :=
  RawMessage.text (Value.array [Value.number "10", Value.number "20"])

/-- The decimal value of a string of digits, read from the left. -/
def decimalValue (ds : List Char) : Nat :=
  ds.foldl (fun a c => a * 10 + (c.toNat - '0'.toNat)) 0

/-- The string `s` is a base-10 representation of the natural number `k`: it
is not empty, holds only the digits `0` to `9`, and its decimal value is
`k`. -/
def IsDecimalOf (s : String) (k : Nat) : Prop :=
  s.data ≠ [] ∧ (∀ c ∈ s.data, '0' ≤ c ∧ c ≤ '9') ∧ decimalValue s.data = k

/-- The value `Key` has reached after the segments `pre`, starting from the
top-level object of the payload; `reached r []` is that object itself. -/
def reached (r : Response) (pre : List String) : Except Panic Value :=
  keyLoop (Value.object (unmarshalMap r.RawData)) pre

/-! ## Lemmas on `strings.Split` -/

theorem splitLoop_ne_nil (cs acc : List Char) : splitLoop cs acc ≠ [] := by
  induction cs generalizing acc with
  | nil => simp [splitLoop]
  | cons c cs ih =>
    unfold splitLoop
    split
    · simp
    · exact ih _

theorem splitLoop_noDot (s acc : List Char) (h : '.' ∉ s) :
    splitLoop s acc = [String.mk (acc.reverse ++ s)] := by
  induction s generalizing acc with
  | nil => simp [splitLoop]
  | cons c cs ih =>
    have hc : c ≠ '.' := fun e => h (by simp [e])
    have hcs : '.' ∉ cs := fun e => h (by simp [e])
    simp [splitLoop, hc, ih _ hcs]

theorem splitLoop_append (p s acc : List Char) (h : '.' ∉ s) :
    splitLoop (p ++ '.' :: s) acc = splitLoop p acc ++ [String.mk s] := by
  induction p generalizing acc with
  | nil => simp [splitLoop, splitLoop_noDot s [] h]
  | cons c cs ih =>
    by_cases hc : c = '.'
    · simp [splitLoop, hc, ih]
    · simp [splitLoop, hc, ih]

theorem stringsSplit_append (p s : String) (h : '.' ∉ s.data) :
    stringsSplit (p ++ "." ++ s) = stringsSplit p ++ [s] := by
  have e : (p ++ "." ++ s).data = p.data ++ '.' :: s.data := by
    simp [String.data_append]
  unfold stringsSplit
  rw [e, splitLoop_append _ _ _ h]

theorem stringsSplit_ne_nil (s : String) : stringsSplit s ≠ [] :=
  splitLoop_ne_nil _ _

/-! ## Lemmas on the loop of `Key` -/

theorem keyLoop_nil (ks : List String) : keyLoop Value.nil ks = Except.ok Value.nil := by
  induction ks with
  | nil => rfl
  | cons k ks ih => simpa [keyLoop, keyStep] using ih

theorem keyLoop_append (v : Value) (ks : List String) (k : String) :
    keyLoop v (ks ++ [k]) =
      match keyLoop v ks with
      | Except.ok w => keyStep w k
      | Except.error p => Except.error p := by
  induction ks generalizing v with
  | nil =>
    simp only [List.nil_append, keyLoop]
    cases keyStep v k <;> rfl
  | cons a ks ih =>
    simp only [List.cons_append, keyLoop]
    cases h : keyStep v a with
    | ok w => simpa using ih w
    | error p => rfl

theorem keyLoop_append_list (v : Value) (ks post : List String) :
    keyLoop v (ks ++ post) =
      match keyLoop v ks with
      | Except.ok w => keyLoop w post
      | Except.error p => Except.error p := by
  induction ks generalizing v with
  | nil => simp only [List.nil_append, keyLoop]
  | cons a ks ih =>
    simp only [List.cons_append, keyLoop]
    cases h : keyStep v a with
    | ok w => simpa using ih w
    | error p => rfl

/-- `Key` is the loop run over all the segments from the top-level object. -/
theorem Key_eq_reached (r : Response) (key : String) :
    r.Key key = reached r (stringsSplit key) := by
  unfold Response.Key reached
  cases h : stringsSplit key with
  | nil => exact absurd h (stringsSplit_ne_nil key)
  | cons k0 rest => simp [keyLoop, keyStep]

/-- Appending one dot-free segment to a path applies one more turn of the
loop to the value the path reaches. -/
theorem Key_append_segment (r : Response) (p s : String) (v : Value)
    (hs : '.' ∉ s.data) (hp : r.Key p = Except.ok v) :
    r.Key (p ++ "." ++ s) = keyStep v s := by
  rw [Key_eq_reached] at hp ⊢
  unfold reached at hp ⊢
  rw [stringsSplit_append p s hs, keyLoop_append, hp]

/-! ## Lemmas on `strconv` -/

theorem zero_toNat : '0'.toNat = 48 := rfl

theorem digit_toNat (c : Char) (h : '0' ≤ c ∧ c ≤ '9') : 48 ≤ c.toNat ∧ c.toNat ≤ 57 :=
  ⟨h.1, h.2⟩

theorem decimalFold_ge (ds : List Char) (n : Nat) :
    n ≤ ds.foldl (fun a c => a * 10 + (c.toNat - '0'.toNat)) n := by
  induction ds generalizing n with
  | nil => simp
  | cons c cs ih =>
    simp only [List.foldl_cons]
    exact le_trans (by omega) (ih _)

theorem parseUintLoop_digits (ds : List Char) (n : Nat)
    (hd : ∀ c ∈ ds, '0' ≤ c ∧ c ≤ '9') (hn : n ≤ maxVal) :
    parseUintLoop ds n =
      if ds.foldl (fun a c => a * 10 + (c.toNat - '0'.toNat)) n ≤ maxVal
      then (ds.foldl (fun a c => a * 10 + (c.toNat - '0'.toNat)) n, none)
      else (maxVal, some NumError.outOfRange) := by
  induction ds generalizing n with
  | nil => simp [parseUintLoop, hn]
  | cons c cs ih =>
    have hc := hd c (by simp)
    have hcn := digit_toNat c hc
    have hcs : ∀ c ∈ cs, '0' ≤ c ∧ c ≤ '9' := fun x hx => hd x (by simp [hx])
    have hge := decimalFold_ge cs (n * 10 + (c.toNat - '0'.toNat))
    simp only [parseUintLoop, hc, and_self, if_true, List.foldl_cons]
    simp only [maxVal, intSize, cutoff10, zero_toNat] at hn hge ⊢
    norm_num at hn ⊢
    by_cases h1 : 1844674407370955162 ≤ n
    · rw [if_pos h1, if_neg (by omega)]
    · rw [if_neg h1]
      have e10 : n * 10 % 18446744073709551616 = n * 10 := Nat.mod_eq_of_lt (by omega)
      rw [e10]
      by_cases h2 : n * 10 + (c.toNat - 48) < 18446744073709551616
      · rw [Nat.mod_eq_of_lt h2, if_neg (by omega)]
        have := ih (n * 10 + (c.toNat - 48)) hcs (by simp only [maxVal, intSize]; omega)
        simp only [maxVal, intSize, zero_toNat] at this
        norm_num at this
        exact this
      · rw [if_pos, if_neg (by omega)]
        left
        have : (n * 10 + (c.toNat - 48)) % 18446744073709551616
            = n * 10 + (c.toNat - 48) - 18446744073709551616 := by
          rw [Nat.mod_eq_sub_mod (by omega)]
          apply Nat.mod_eq_of_lt
          omega
        omega

theorem Atoi_decimal (s : String) (k : Nat) (h : IsDecimalOf s k) :
    Atoi s = if k < 2 ^ 63 then ((k : Int), none)
      else ((2 : Int) ^ 63 - 1, some NumError.outOfRange) := by
  obtain ⟨hne, hd, hv⟩ := h
  unfold Atoi
  cases hs : s.data with
  | nil => exact absurd hs hne
  | cons c cs =>
    rw [hs] at hd hv
    have hc := digit_toNat c (hd c (by simp))
    have hplus : c ≠ '+' := by
      intro e; rw [e] at hc; revert hc; decide
    have hminus : c ≠ '-' := by
      intro e; rw [e] at hc; revert hc; decide
    have hu := parseUintLoop_digits (c :: cs) 0 hd (Nat.zero_le _)
    unfold decimalValue at hv
    rw [hv] at hu
    simp only [parseInt, parseUint, hplus, hminus, or_self, if_false, decide_False]
    rw [hu]
    simp only [maxVal, intSize]
    norm_num
    by_cases h1 : k ≤ 18446744073709551615
    · rw [if_pos h1]
      by_cases h2 : k < 9223372036854775808
      · simp [h2]
      · simp [h2]
    · rw [if_neg h1]
      have h2 : ¬ k < 9223372036854775808 := by omega
      simp [h2]

theorem toInt_decimal (s : String) (k : Nat) (h : IsDecimalOf s k) :
    toInt s = if k < 2 ^ 63 then (k : Int) else (2 : Int) ^ 63 - 1 := by
  unfold toInt
  rw [Atoi_decimal s k h]
  split <;> rfl

theorem decimal_noDot (s : String) (k : Nat) (h : IsDecimalOf s k) : '.' ∉ s.data := by
  intro hm
  have := digit_toNat _ (h.2.1 _ hm)
  revert this
  decide

theorem keyStep_array_nat (xs : List Value) (s : String) (k : Nat)
    (hk : toInt s = (k : Int)) :
    keyStep (Value.array xs) s = Except.ok (xs.getD k Value.nil) := by
  simp only [keyStep, hk, sliceIndex]
  by_cases h : k < xs.length
  · have h1 : (xs.length : Int) > (k : Int) := by exact_mod_cast h
    simp [h1, h, List.getD_eq_getElem?_getD]
  · have h1 : ¬ (xs.length : Int) > (k : Int) := by
      intro h2; exact h (by exact_mod_cast h2)
    have h3 : xs.length ≤ k := by omega
    simp [h1, List.getD_eq_getElem?_getD, List.getElem?_eq_none h3]

/-- C1: when the path `p` reaches a sequence `xs` (of a length a Go slice can
have) and `s` is a base-10 representation of the natural number `k`, then
`Key(p + "." + s)` is the `k`-th element of `xs` when `k < len(xs)` and nil
when `k ≥ len(xs)`. -/
theorem Key_index_by_bounds (r : Response) (p s : String) (xs : List Value) (k : Nat)
    (hp : r.Key p = Except.ok (Value.array xs)) (hlen : xs.length < 2 ^ 63)
    (hs : IsDecimalOf s k) :
    (∀ h : k < xs.length, r.Key (p ++ "." ++ s) = Except.ok (xs.get ⟨k, h⟩)) ∧
    (xs.length ≤ k → r.Key (p ++ "." ++ s) = Except.ok Value.nil) := by
  rw [Key_append_segment r p s _ (decimal_noDot s k hs) hp]
  have ht := toInt_decimal s k hs
  by_cases hk : k < 2 ^ 63
  · rw [if_pos hk] at ht
    rw [keyStep_array_nat xs s k ht]
    constructor
    · intro h
      simp [List.getD_eq_getElem?_getD, List.getElem?_eq_getElem h]
    · intro h
      simp [List.getD_eq_getElem?_getD, List.getElem?_eq_none h]
  · rw [if_neg hk] at ht
    have ht2 : toInt s = ((9223372036854775807 : Nat) : Int) := by rw [ht]; norm_num
    rw [keyStep_array_nat xs s _ ht2]
    constructor
    · intro h; omega
    · intro _
      have hle : xs.length ≤ 9223372036854775807 := by omega
      rw [List.getD_eq_getElem?_getD, List.getElem?_eq_none hle]
      rfl

theorem Key_index_by_bounds_witness :
    (sampleResponse.Key ("a.b" ++ "." ++ "1") = Except.ok (Value.number "20")) ∧
    (sampleResponse.Key ("a.b" ++ "." ++ "5") = Except.ok Value.nil) :=
  ⟨(Key_index_by_bounds sampleResponse "a.b" "1"
      [Value.number "10", Value.number "20", Value.number "30"] 1 (by rfl) (by norm_num)
      ⟨by decide, by decide, by decide⟩).1 (by decide),
   (Key_index_by_bounds sampleResponse "a.b" "5"
      [Value.number "10", Value.number "20", Value.number "30"] 5 (by rfl) (by norm_num)
      ⟨by decide, by decide, by decide⟩).2 (by decide)⟩

theorem mapIndex_absent (m : List (String × Value)) (k : String)
    (h : ∀ kv ∈ m, kv.1 ≠ k) : mapIndex m k = Value.nil := by
  unfold mapIndex
  generalize Value.nil = v0
  induction m generalizing v0 with
  | nil => rfl
  | cons kv m ih =>
    have h1 : kv.1 ≠ k := h kv (by simp)
    simp only [List.foldl_cons, h1, if_false]
    exact ih (fun x hx => h x (by simp [hx])) v0

theorem parseInt_cases (cs : List Char) :
    (parseInt cs).2 = some NumError.invalidDigits ∧ (parseInt cs).1 = 0 ∨
    (parseInt cs).2 = some NumError.outOfRange ∧ cs.head? ≠ some '-' ∧
      (parseInt cs).1 = 9223372036854775807 ∨
    (parseInt cs).2 = some NumError.outOfRange ∧ cs.head? = some '-' ∧
      (parseInt cs).1 = -9223372036854775808 ∨
    (parseInt cs).2 = none := by
  cases cs with
  | nil => left; exact ⟨rfl, rfl⟩
  | cons c cs =>
    simp only [parseInt, intSize]
    generalize (if c = '+' ∨ c = '-' then cs else c :: cs) = digits
    rcases hpu : parseUint digits with ⟨un, e⟩
    cases e with
    | none =>
      simp only []
      by_cases hc : c = '-' <;> simp [hc] <;> split_ifs <;> simp
    | some e =>
      cases e with
      | invalidDigits => left; exact ⟨rfl, rfl⟩
      | outOfRange =>
        simp only []
        by_cases hc : c = '-' <;> simp [hc] <;> split_ifs <;> simp

theorem Atoi_invalidDigits_value (s : String) (h : (Atoi s).2 = some NumError.invalidDigits) :
    toInt s = 0 := by
  unfold toInt
  unfold Atoi at h ⊢
  rcases parseInt_cases s.data with h1 | h1 | h1 | h1
  · exact h1.2
  · rw [h1.1] at h; cases h
  · rw [h1.1] at h; cases h
  · rw [h1] at h; cases h

theorem Atoi_outOfRange_value (s : String) (h : (Atoi s).2 = some NumError.outOfRange)
    (hsign : s.data.head? ≠ some '-') : toInt s = 9223372036854775807 := by
  unfold toInt
  unfold Atoi at h ⊢
  rcases parseInt_cases s.data with h1 | h1 | h1 | h1
  · rw [h1.1] at h; cases h
  · exact h1.2.2
  · exact absurd h1.2.1 hsign
  · rw [h1] at h; cases h

/-- C4 (amended): for a sequence `xs` reached by `p` and a dot-free segment
`s`, if parsing `s` fails with a syntax error then `Key(p + "." + s)` is the
element at index 0 of `xs`, or nil when `xs` is empty; if parsing fails because
the digits are out of range and `s` has no minus sign, then `Key` returns nil
(for `xs` of a length a Go slice can have). -/
theorem Key_parse_failure (r : Response) (p s : String) (xs : List Value)
    (hp : r.Key p = Except.ok (Value.array xs)) (hs : '.' ∉ s.data) :
    ((Atoi s).2 = some NumError.invalidDigits →
      r.Key (p ++ "." ++ s) = Except.ok (xs.headD Value.nil)) ∧
    ((Atoi s).2 = some NumError.outOfRange → s.data.head? ≠ some '-' →
      xs.length < 2 ^ 63 → r.Key (p ++ "." ++ s) = Except.ok Value.nil) := by
  rw [Key_append_segment r p s _ hs hp]
  constructor
  · intro h
    have h0 : toInt s = ((0 : Nat) : Int) := by
      rw [Atoi_invalidDigits_value s h]; rfl
    rw [keyStep_array_nat xs s 0 h0]
    cases xs <;> rfl
  · intro h hsign hlen
    have h0 : toInt s = ((9223372036854775807 : Nat) : Int) := by
      rw [Atoi_outOfRange_value s h hsign]; rfl
    rw [keyStep_array_nat xs s _ h0]
    have hle : xs.length ≤ 9223372036854775807 := by omega
    rw [List.getD_eq_getElem?_getD, List.getElem?_eq_none hle]
    rfl

theorem Key_parse_failure_witness :
    sampleResponse.Key ("a.b" ++ "." ++ "x") = Except.ok (Value.number "10") ∧
    sampleResponse.Key ("a.b" ++ "." ++ "99999999999999999999") = Except.ok Value.nil :=
  ⟨(Key_parse_failure sampleResponse "a.b" "x"
      [Value.number "10", Value.number "20", Value.number "30"] (by rfl) (by decide)).1
      (by rfl),
   (Key_parse_failure sampleResponse "a.b" "99999999999999999999"
      [Value.number "10", Value.number "20", Value.number "30"] (by rfl) (by decide)).2
      (by rfl) (by decide) (by norm_num)⟩

/-- C4 (counterexample): the segment `99999999999999999999` fails to parse
(range error), the sequence `[10,20,30]` reached by `a.b` is not empty, and
yet `Key` returns nil and not the element `10` at index 0. -/
theorem Key_overflow_not_index_zero :
    (Atoi "99999999999999999999").2 = some NumError.outOfRange ∧
    sampleResponse.Key "a.b" = Except.ok
      (Value.array [Value.number "10", Value.number "20", Value.number "30"]) ∧
    sampleResponse.Key "a.b.99999999999999999999" = Except.ok Value.nil ∧
    sampleResponse.Key "a.b.99999999999999999999" ≠ Except.ok (Value.number "10") := by
  refine ⟨by rfl, by rfl, by rfl, ?_⟩
  have e : sampleResponse.Key "a.b.99999999999999999999" = Except.ok Value.nil := by rfl
  rw [e]
  intro h
  cases h

/-- C2 (failing input): on the payload `{"a":[1]}` the path `a.-1` makes `Key`
index the sequence at -1, which panics. -/
theorem Key_negative_index_panics :
    Response.Key { RawData := oneElementData } "a.-1"
      = Except.error Panic.indexOutOfRange := by
  rfl

/-- C3 (failing input): on the payload `{"a":5}` the path `a.b` makes `Key`
return the number 5, not nil. -/
theorem Key_scalar_passes_through :
    Response.Key { RawData := scalarData } "a.b"
      = Except.ok (Value.number "5") := by
  rfl

/-- C5: if the segments of the path are `pre`, then `s`, then `post`, the
value reached after `pre` is an object (for an empty `pre`, the top-level
mapping) and that object has no field `s`, then `Key` returns nil, whatever
`post` is. -/
theorem Key_missing_field_absorbs (r : Response) (key : String) (pre : List String)
    (s : String) (post : List String) (m : List (String × Value))
    (hsplit : stringsSplit key = pre ++ s :: post)
    (hreach : reached r pre = Except.ok (Value.object m))
    (habs : ∀ kv ∈ m, kv.1 ≠ s) :
    r.Key key = Except.ok Value.nil := by
  rw [Key_eq_reached, hsplit]
  unfold reached at hreach ⊢
  rw [keyLoop_append_list, hreach]
  simp only [keyLoop, keyStep, mapIndex_absent m s habs]
  exact keyLoop_nil post

theorem Key_missing_field_absorbs_witness :
    sampleResponse.Key "a.c" = Except.ok Value.nil ∧
    sampleResponse.Key "a.c.0.d" = Except.ok Value.nil :=
  ⟨Key_missing_field_absorbs sampleResponse "a.c" ["a"] "c" []
      [("b", Value.array [Value.number "10", Value.number "20", Value.number "30"])]
      (by rfl) (by rfl) (by decide),
   Key_missing_field_absorbs sampleResponse "a.c.0.d" ["a"] "c" ["0", "d"]
      [("b", Value.array [Value.number "10", Value.number "20", Value.number "30"])]
      (by rfl) (by rfl) (by decide)⟩

/-- C6: for every path, `Key` starts from the field named by the first segment
in the top-level mapping and runs the loop over the remaining segments; the
empty path looks up the field named by the empty string; and when the raw data
is not a JSON object, `Key` returns nil for every path. -/
theorem Key_first_segment_field_lookup (r : Response) (key : String) :
    (∃ s0 rest, stringsSplit key = s0 :: rest ∧
      r.Key key = keyLoop (mapIndex (unmarshalMap r.RawData) s0) rest) ∧
    r.Key "" = Except.ok (mapIndex (unmarshalMap r.RawData) "") ∧
    ((∀ m, r.RawData ≠ RawMessage.text (Value.object m)) →
      r.Key key = Except.ok Value.nil) := by
  refine ⟨?_, by rfl, ?_⟩
  · cases h : stringsSplit key with
    | nil => exact absurd h (stringsSplit_ne_nil key)
    | cons k0 rest => exact ⟨k0, rest, rfl, by simp [Response.Key, h]⟩
  · intro hno
    have hd : unmarshalMap r.RawData = [] := by
      unfold unmarshalMap
      split
      · rename_i m hm
        exact absurd hm (hno m)
      · rfl
    unfold Response.Key
    rw [hd]
    cases h : stringsSplit key with
    | nil => exact absurd h (stringsSplit_ne_nil key)
    | cons k0 rest => exact keyLoop_nil rest

theorem Key_first_segment_field_lookup_witness :
    Response.Key { RawData := arrayData } "0" = Except.ok Value.nil :=
  (Key_first_segment_field_lookup { RawData := arrayData } "0").2.2
    (by intro m h; cases h)

/-! ## The canonical decimal representation -/

theorem digitChar_digit : ∀ m, m < 10 →
    ('0' ≤ Nat.digitChar m ∧ Nat.digitChar m ≤ '9') ∧ (Nat.digitChar m).toNat - 48 = m := by
  decide

theorem toDigitsCore_decimal (fuel n : Nat) (ds : List Char) (hn : n < fuel)
    (hds : ∀ c ∈ ds, '0' ≤ c ∧ c ≤ '9') :
    (∀ c ∈ Nat.toDigitsCore 10 fuel n ds, '0' ≤ c ∧ c ≤ '9') ∧
    Nat.toDigitsCore 10 fuel n ds ≠ [] ∧
    (Nat.toDigitsCore 10 fuel n ds).foldl (fun a c => a * 10 + (c.toNat - '0'.toNat)) 0 =
      ds.foldl (fun a c => a * 10 + (c.toNat - '0'.toNat)) n := by
  induction fuel generalizing n ds with
  | zero => omega
  | succ fuel ih =>
    have hd := digitChar_digit (n % 10) (Nat.mod_lt _ (by norm_num))
    have hds1 : ∀ c ∈ Nat.digitChar (n % 10) :: ds, '0' ≤ c ∧ c ≤ '9' := by
      intro c hc
      rcases List.mem_cons.mp hc with rfl | h
      · exact hd.1
      · exact hds c h
    unfold Nat.toDigitsCore
    simp only [zero_toNat]
    by_cases h0 : n / 10 = 0
    · simp only [h0, if_true]
      refine ⟨hds1, by simp, ?_⟩
      have hlt : n < 10 := by omega
      have hd2 := hd.2
      rw [Nat.mod_eq_of_lt hlt] at hd2
      simp only [List.foldl_cons, Nat.zero_mul, Nat.zero_add, Nat.mod_eq_of_lt hlt, hd2]
    · simp only [h0, if_false]
      obtain ⟨h1, h2, h3⟩ := ih (n / 10) (Nat.digitChar (n % 10) :: ds) (by omega) hds1
      refine ⟨h1, h2, ?_⟩
      simp only [zero_toNat] at h3
      rw [h3]
      simp only [List.foldl_cons, hd.2]
      congr 1
      omega

/-- The decimal numeral Lean prints for `k` is a base-10 representation of
`k`. -/
theorem isDecimalOf_repr (k : Nat) : IsDecimalOf (Nat.repr k) k := by
  obtain ⟨h1, h2, h3⟩ := toDigitsCore_decimal (k + 1) k [] (by omega) (by simp)
  refine ⟨h2, h1, ?_⟩
  unfold decimalValue
  exact h3

/-! ## The API caller -/

theorem Values_Encode_method (method : String) :
    Values.Encode (Values.Set [] "method" method) = "method=" ++ QueryEscape method := by
  have h : QueryEscape "method" = "method" := by rfl
  simp [Values.Encode, Values.Set, h, String.intercalate, String.intercalate.go]

/-- The escaping of `url.QueryEscape` on a method name that holds a space and
reserved characters, and on one outside ASCII. -/
theorem QueryEscape_examples :
    QueryEscape "a b&admin=1#x" = "a+b%26admin%3D1%23x" ∧
    QueryEscape "client.get" = "client.get" ∧
    QueryEscape "é/~" = "%C3%A9%2F~" := by
  refine ⟨by rfl, by rfl, by rfl⟩

/-- When `json.Marshal` gives the bytes `b` and the URL is accepted, the
request `Call` builds is a POST whose URL is
`host + "?method=" + QueryEscape(method)` and whose body is `b`, with the JSON
content type and the credentials of the client; and the result of `Call` is
what the transport answers to exactly this request. -/
theorem buildRequest_of_marshal (a : API) (env : Env)
    (method : String) (params : Request) (b : RawMessage)
    (hm : Marshal params = Except.ok b)
    (hu : env.ParseURL (a.Host ++ "?method=" ++ QueryEscape method) = none) :
    a.buildRequest env method params = Except.ok
      { Method := "POST", URL := a.Host ++ "?method=" ++ QueryEscape method, Body := b,
        Header := [("Content-Type", "application/json")],
        BasicAuth := some (a.User, a.Token) } ∧
    a.Call env method params =
      match env.Do { Method := "POST", URL := a.Host ++ "?method=" ++ QueryEscape method,
                     Body := b, Header := [("Content-Type", "application/json")],
                     BasicAuth := some (a.User, a.Token) } with
      | Except.error err => failure err
      | Except.ok res =>
        match res.Body with
        | Except.error err => failure err
        | Except.ok result => (unmarshalResponse result {}).1 := by
  have e : a.Host ++ "?" ++ ("method=" ++ QueryEscape method)
      = a.Host ++ "?method=" ++ QueryEscape method := by
    simp [String.append_assoc]
    rfl
  have hb : a.buildRequest env method params = Except.ok
      { Method := "POST", URL := a.Host ++ "?method=" ++ QueryEscape method, Body := b,
        Header := [("Content-Type", "application/json")],
        BasicAuth := some (a.User, a.Token) } := by
    simp only [API.buildRequest, Values_Encode_method, hm, NewRequest, e, hu]
  refine ⟨hb, ?_⟩
  simp only [API.Call, hb]

/-- C8 (failing input): for the parameters `Request{"x": math.NaN()}`
`json.Marshal` fails, and `Call` still builds the request, with the URL
`host + "?method=client.get"` and an empty body, which is not JSON; for the
parameters `Request{"client_id": "1000"}` the body is the JSON object
`{"client_id":"1000"}`. -/
theorem buildRequest_marshal_failure_empty_body :
    Marshal nanParams = Except.error "json: unsupported value: NaN" ∧
    sampleAPI.buildRequest (envWithBody sampleBody) "client.get" nanParams = Except.ok
      { Method := "POST", URL := "http://host/api/2.0/?method=client.get",
        Body := RawMessage.empty, Header := [("Content-Type", "application/json")],
        BasicAuth := some ("user", "token") } ∧
    sampleAPI.buildRequest (envWithBody sampleBody) "client.get" clientParams = Except.ok
      { Method := "POST", URL := "http://host/api/2.0/?method=client.get",
        Body := RawMessage.text (Value.object [("client_id", Value.string "1000")]),
        Header := [("Content-Type", "application/json")],
        BasicAuth := some ("user", "token") } := by
  refine ⟨by rfl, by rfl, by rfl⟩

/-- If `http.NewRequest` fails with error `e`, or the request is built and
the exchange fails with `e`, or the exchange succeeds and reading the body
fails with `e`, then `Call` returns the envelope with status false, error code
500, error message `e` and empty raw data. -/
theorem Call_checked_failure (a : API) (env : Env)
    (method : String) (params : Request) (e : String)
    (h : a.buildRequest env method params = Except.error e ∨
      (∃ req, a.buildRequest env method params = Except.ok req ∧
        env.Do req = Except.error e) ∨
      (∃ req res, a.buildRequest env method params = Except.ok req ∧
        env.Do req = Except.ok res ∧ res.Body = Except.error e)) :
    a.Call env method params =
      { Status := false, ErrorCode := 500, ErrorMesssage := e,
        RawData := RawMessage.empty } := by
  rcases h with h | ⟨req, h1, h2⟩ | ⟨req, res, h1, h2, h3⟩
  · simp only [API.Call, h, failure]
  · simp only [API.Call, h1, h2, failure]
  · simp only [API.Call, h1, h2, h3, failure]

theorem Call_checked_failure_witness :
    sampleAPI.Call envRefused "client.get" clientParams =
      { Status := false, ErrorCode := 500, ErrorMesssage := "connection refused",
        RawData := RawMessage.empty } :=
  Call_checked_failure sampleAPI envRefused "client.get" clientParams "connection refused"
    (Or.inr (Or.inl ⟨_, rfl, rfl⟩))

/-- C7 (failing input): for the parameters `Request{"x": math.NaN()}`
building the request fails in `json.Marshal` with the error
`json: unsupported value: NaN`; `Call` does not return the envelope with
status false, code 500 and that message, it sends the request and returns
what the server answers, here an envelope with status true and code 0. -/
theorem Call_marshal_failure_not_reported :
    Marshal nanParams = Except.error "json: unsupported value: NaN" ∧
    (sampleAPI.Call (envWithBody sampleBody) "client.get" nanParams).Status = true ∧
    (sampleAPI.Call (envWithBody sampleBody) "client.get" nanParams).ErrorCode = 0 ∧
    (sampleAPI.Call (envWithBody sampleBody) "client.get" nanParams).ErrorMesssage = "" ∧
    (sampleAPI.Call (envWithBody sampleBody) "client.get" nanParams).Key "a.b.1"
      = Except.ok (Value.number "20") := by
  refine ⟨by rfl, by rfl, by rfl, by rfl, by rfl⟩

/-- C9 (amended): when the body was read and it is empty, not a JSON text,
or a JSON value other than an object, `Call` returns the envelope with all its
fields at their defaults. -/
theorem Call_unparsed_body_zero (a : API) (env : Env)
    (method : String) (params : Request) (req : HttpRequest) (res : HttpResponse)
    (body : RawMessage)
    (h1 : a.buildRequest env method params = Except.ok req)
    (h2 : env.Do req = Except.ok res) (h3 : res.Body = Except.ok body)
    (hb : ∀ ms, body ≠ RawMessage.text (Value.object ms)) :
    a.Call env method params =
      { Status := false, ErrorCode := 0, ErrorMesssage := "", RawData := RawMessage.empty } := by
  simp only [API.Call, h1, h2, h3, unmarshalResponse]
  cases body with
  | empty => rfl
  | invalid => rfl
  | text v =>
    cases v with
    | object ms => exact absurd rfl (hb ms)
    | _ => rfl

theorem Call_unparsed_body_zero_witness :
    sampleAPI.Call (envWithBody RawMessage.invalid) "client.get" clientParams =
      { Status := false, ErrorCode := 0, ErrorMesssage := "", RawData := RawMessage.empty } :=
  Call_unparsed_body_zero sampleAPI (envWithBody RawMessage.invalid) "client.get" clientParams
    _ _ RawMessage.invalid rfl rfl rfl (by intro ms h; cases h)

/-- C9 (counterexample): the body
`{"status":true,"error_code":"oops","error_message":"m","data":{"a":5}}` is well formed,
fails to parse as the envelope (`error_code` is a string), and `Call` returns
an envelope whose status is true, whose message is `m` and whose raw data is
not empty. -/
theorem Call_wrong_type_not_zero :
    (unmarshalResponse wrongTypeBody {}).2 = some JsonError.typeMismatch ∧
    (sampleAPI.Call (envWithBody wrongTypeBody) "client.get" clientParams).Status = true ∧
    (sampleAPI.Call (envWithBody wrongTypeBody) "client.get" clientParams).ErrorCode = 0 ∧
    (sampleAPI.Call (envWithBody wrongTypeBody) "client.get" clientParams).ErrorMesssage = "m" ∧
    (sampleAPI.Call (envWithBody wrongTypeBody) "client.get" clientParams).Key "a"
      = Except.ok (Value.number "5") := by
  refine ⟨by rfl, by rfl, by rfl, by rfl, by rfl⟩

/-! ## Decoding into a struct -/

theorem storeValue_kind (v : FieldValue) (x : Value) :
    (storeValue v x).1.kind = v.kind := by
  cases v <;> cases x <;> first
    | rfl
    | (simp only [storeValue]; split <;> rfl)

theorem storeValue_flag_kind (v w : FieldValue) (x : Value) (h : v.kind = w.kind) :
    (storeValue v x).2 = (storeValue w x).2 := by
  cases v <;> cases w <;> simp only [FieldValue.kind] at h <;>
    first
    | omega
    | (cases x <;> first
        | rfl
        | (simp only [storeValue]; split <;> rfl))

/-- A value is stored without a type error exactly when it fits the field. -/
theorem storeValue_flag_fits (v : FieldValue) (x : Value) :
    (storeValue v x).2 = false ↔ fits v x = true := by
  cases v <;> cases x <;> first
    | (simp [storeValue, fits]; done)
    | (simp only [storeValue, fits]
       generalize parseInt _ = p
       rcases p with ⟨m, _ | e⟩ <;> simp)

theorem storeAt_getElem (q : String × Bool → Bool) (fs : List Field) (x : Value) (n : Nat) :
    (storeAt (fun f => q f.label) fs x).1[n]? =
      (fs[n]?).map (fun f =>
        if labelIndex q (fs.map Field.label) = some n
        then Field.mk f.name f.tagged (storeValue f.value x).1 else f) := by
  induction fs generalizing n with
  | nil => simp [storeAt]
  | cons f fs ih =>
    by_cases hq : q f.label = true
    · cases n with
      | zero => simp [storeAt, hq, labelIndex]
      | succ m => simp [storeAt, hq, labelIndex]
    · cases n with
      | zero => simp [storeAt, hq, labelIndex]
      | succ m =>
        simp only [storeAt, hq, labelIndex, List.map_cons, Bool.false_eq_true, if_false,
          List.getElem?_cons_succ]
        rw [ih m]
        congr 1
        funext g
        cases labelIndex q (fs.map Field.label) <;> simp

theorem storeAt_flag (q : String × Bool → Bool) (fs : List Field) (x : Value) :
    (storeAt (fun f => q f.label) fs x).2 =
      match labelIndex q (fs.map Field.label) with
      | some n =>
        (match fs[n]? with
         | some f => (storeValue f.value x).2
         | none => false)
      | none => false := by
  induction fs with
  | nil => simp [storeAt, labelIndex]
  | cons f fs ih =>
    by_cases hq : q f.label = true
    · simp [storeAt, hq, labelIndex]
    · simp only [storeAt, hq, labelIndex, List.map_cons, Bool.false_eq_true, if_false]
      rw [ih]
      cases labelIndex q (fs.map Field.label) <;> simp

theorem any_label (q : String × Bool → Bool) (fs : List Field) :
    (fs.map Field.label).any q = fs.any (fun f => q f.label) := by
  induction fs with
  | nil => rfl
  | cons f fs ih => simp [List.any_cons, ih]

theorem fieldFor_eq (fold : String → String) (fs : List Field) (key : String) :
    fieldFor fold fs key =
      if fs.any (fun f => dominant (fs.map Field.label) f.label && decide (f.name = key))
      then labelIndex (fun l => dominant (fs.map Field.label) l && decide (l.1 = key))
        (fs.map Field.label)
      else labelIndex (fun l => dominant (fs.map Field.label) l && decide (fold l.1 = fold key))
        (fs.map Field.label) := by
  unfold fieldFor
  simp only []
  rw [any_label (fun l => dominant (fs.map Field.label) l && decide (l.1 = key)) fs]
  rfl

theorem decodeMember_getElem (fold : String → String) (fs : List Field)
    (kv : String × Value) (n : Nat) :
    (decodeMember fold fs kv).1[n]? =
      (fs[n]?).map (fun f =>
        if fieldFor fold fs kv.1 = some n
        then Field.mk f.name f.tagged (storeValue f.value kv.2).1 else f) := by
  rw [fieldFor_eq]
  unfold decodeMember
  simp only []
  by_cases h : (fs.any (fun f => dominant (fs.map Field.label) f.label &&
      decide (f.name = kv.1))) = true
  · simp only [if_pos h]
    exact storeAt_getElem
      (fun l => dominant (fs.map Field.label) l && decide (l.1 = kv.1)) fs kv.2 n
  · simp only [if_neg h]
    exact storeAt_getElem
      (fun l => dominant (fs.map Field.label) l && decide (fold l.1 = fold kv.1)) fs kv.2 n

theorem decodeMember_flag (fold : String → String) (fs : List Field)
    (kv : String × Value) :
    (decodeMember fold fs kv).2 =
      match fieldFor fold fs kv.1 with
      | some n =>
        (match fs[n]? with
         | some f => (storeValue f.value kv.2).2
         | none => false)
      | none => false := by
  rw [fieldFor_eq]
  unfold decodeMember
  simp only []
  by_cases h : (fs.any (fun f => dominant (fs.map Field.label) f.label &&
      decide (f.name = kv.1))) = true
  · simp only [if_pos h]
    exact storeAt_flag
      (fun l => dominant (fs.map Field.label) l && decide (l.1 = kv.1)) fs kv.2
  · simp only [if_neg h]
    exact storeAt_flag
      (fun l => dominant (fs.map Field.label) l && decide (fold l.1 = fold kv.1)) fs kv.2

theorem decodeMember_labels (fold : String → String) (fs : List Field)
    (kv : String × Value) :
    (decodeMember fold fs kv).1.map Field.label = fs.map Field.label := by
  apply List.ext_getElem?
  intro n
  rw [List.getElem?_map, decodeMember_getElem, List.getElem?_map]
  cases fs[n]? with
  | none => rfl
  | some f =>
    simp only [Option.map_some']
    split <;> rfl

theorem fieldFor_congr (fold : String → String) (fs gs : List Field) (key : String)
    (h : gs.map Field.label = fs.map Field.label) :
    fieldFor fold gs key = fieldFor fold fs key := by
  unfold fieldFor
  rw [h]

theorem decodeObject_cons (fold : String → String) (fs : List Field)
    (kv : String × Value) (ms : List (String × Value)) :
    decodeObject fold fs (kv :: ms) =
      ((decodeObject fold (decodeMember fold fs kv).1 ms).1,
       (decodeMember fold fs kv).2 || (decodeObject fold (decodeMember fold fs kv).1 ms).2) := by
  rfl

theorem decodeMember_kind (fold : String → String) (fs : List Field)
    (kv : String × Value) (n : Nat) (g : Field)
    (h : (decodeMember fold fs kv).1[n]? = some g) :
    ∃ f, fs[n]? = some f ∧ g.value.kind = f.value.kind := by
  rw [decodeMember_getElem] at h
  cases hf : fs[n]? with
  | none => rw [hf] at h; cases h
  | some f =>
    rw [hf] at h
    simp only [Option.map_some', Option.some.injEq] at h
    refine ⟨f, rfl, ?_⟩
    rw [← h]
    split
    · exact storeValue_kind _ _
    · rfl

theorem decodeObject_spec (fold : String → String) (ms : List (String × Value))
    (fs : List Field) :
    (decodeObject fold fs ms).1.map Field.label = fs.map Field.label ∧
    (∀ n, (decodeObject fold fs ms).1[n]? = (fs[n]?).map (fun f =>
      Field.mk f.name f.tagged
        (storeAll f.value (ms.filter (fun kv => fieldFor fold fs kv.1 = some n))))) ∧
    ((decodeObject fold fs ms).2 = false ↔
      ∀ kv ∈ ms, ∀ n f, fieldFor fold fs kv.1 = some n → fs[n]? = some f →
        (storeValue f.value kv.2).2 = false) := by
  induction ms generalizing fs with
  | nil =>
    refine ⟨rfl, ?_, ?_⟩
    · intro n
      simp only [decodeObject, List.filter_nil, storeAll, List.foldl_nil]
      cases fs[n]? <;> rfl
    · simp [decodeObject]
  | cons kv ms ih =>
    obtain ⟨ihn, ihv, ihe⟩ := ih (decodeMember fold fs kv).1
    have hn := decodeMember_labels fold fs kv
    have hff : ∀ key, fieldFor fold (decodeMember fold fs kv).1 key = fieldFor fold fs key :=
      fun key => fieldFor_congr fold fs _ key hn
    rw [decodeObject_cons]
    refine ⟨ihn.trans hn, ?_, ?_⟩
    · intro n
      simp only []
      rw [ihv n, decodeMember_getElem]
      simp only [hff]
      cases fs[n]? with
      | none => rfl
      | some f =>
        simp only [Option.map_some', Option.some.injEq]
        by_cases hk : fieldFor fold fs kv.1 = some n
        · simp [hk, List.filter_cons, storeAll]
        · simp [hk, List.filter_cons, storeAll]
    · simp only [Bool.or_eq_false_iff, ihe, hff, decodeMember_flag]
      constructor
      · rintro ⟨h1, h2⟩ kv1 hkv1 n f hfor hf
        rcases List.mem_cons.mp hkv1 with rfl | hmem
        · rw [hfor] at h1
          simp only [hf] at h1
          exact h1
        · have hg : ∃ g, (decodeMember fold fs kv).1[n]? = some g ∧
              g.value.kind = f.value.kind := by
            rw [decodeMember_getElem, hf]
            refine ⟨_, rfl, ?_⟩
            split
            · exact storeValue_kind _ _
            · rfl
          obtain ⟨g, hg1, hg2⟩ := hg
          rw [← storeValue_flag_kind g.value f.value kv1.2 hg2]
          exact h2 kv1 hmem n g hfor hg1
      · intro h
        constructor
        · cases hfor : fieldFor fold fs kv.1 with
          | none => rfl
          | some n =>
            cases hf : fs[n]? with
            | none => simp only [hf]
            | some f =>
              simp only [hf]
              exact h kv (List.mem_cons_self _ _) n f hfor hf
        · intro kv1 hmem n g hfor hg
          obtain ⟨f, hf, hk⟩ := decodeMember_kind fold fs kv n g hg
          rw [storeValue_flag_kind g.value f.value kv1.2 hk]
          exact h kv1 (List.mem_cons_of_mem _ hmem) n f hfor hf

theorem unmarshalStruct_object (fold : String → String) (fs : List Field)
    (ms : List (String × Value)) :
    unmarshalStruct fold (RawMessage.text (Value.object ms)) fs =
      ((decodeObject fold fs ms).1,
       if (decodeObject fold fs ms).2 then some JsonError.typeMismatch else none) := by
  rfl

theorem filter_known_filter (fold : String → String) (fs : List Field)
    (ms : List (String × Value)) (n : Nat) :
    (ms.filter (fun kv => (fieldFor fold fs kv.1).isSome)).filter
        (fun kv => fieldFor fold fs kv.1 = some n) =
      ms.filter (fun kv => fieldFor fold fs kv.1 = some n) := by
  rw [List.filter_filter]
  congr 1
  funext kv
  cases h : fieldFor fold fs kv.1 <;> simp

/-- C10 (amended): for every envelope `r` and every destination struct with
fields `i` passed by pointer: (1) when the raw data is empty or not a JSON
text, `Load` returns a syntax error and leaves the destination as it was;
(2) when it is `null`, `Load` returns no error and changes nothing; (3) when
it is a scalar or an array, `Load` returns a type error and leaves the
destination as it was; (4) when it is an object, `Load` returns no error
exactly when every member that some field answers to fits that field, and a
type error otherwise; each field ends with the values of the members mapped to
it decoded in order into its former value, so a field no member answers to
keeps its value; and the members no field answers to are ignored. -/
theorem Load_pointer_outcomes (fold : String → String) (r : Response) (i : List Field) :
    ((r.RawData = RawMessage.empty ∨ r.RawData = RawMessage.invalid) →
      r.Load fold (Destination.pointer i) = (i, some JsonError.badText)) ∧
    (r.RawData = RawMessage.text Value.nil →
      r.Load fold (Destination.pointer i) = (i, none)) ∧
    (∀ v, r.RawData = RawMessage.text v → v ≠ Value.nil → (∀ ms, v ≠ Value.object ms) →
      r.Load fold (Destination.pointer i) = (i, some JsonError.typeMismatch)) ∧
    (∀ ms, r.RawData = RawMessage.text (Value.object ms) →
      ((r.Load fold (Destination.pointer i)).2 = none ↔
        ∀ kv ∈ ms, ∀ n f, fieldFor fold i kv.1 = some n → i[n]? = some f →
          fits f.value kv.2 = true) ∧
      ((r.Load fold (Destination.pointer i)).2 = none ∨
        (r.Load fold (Destination.pointer i)).2 = some JsonError.typeMismatch) ∧
      (∀ n, (r.Load fold (Destination.pointer i)).1[n]? =
        (i[n]?).map (fun f => Field.mk f.name f.tagged
          (storeAll f.value (ms.filter (fun kv => fieldFor fold i kv.1 = some n))))) ∧
      (∀ n f, i[n]? = some f → (∀ kv ∈ ms, fieldFor fold i kv.1 ≠ some n) →
        (r.Load fold (Destination.pointer i)).1[n]? = some f) ∧
      r.Load fold (Destination.pointer i) =
        Response.Load fold { RawData := RawMessage.text (Value.object
          (ms.filter (fun kv => (fieldFor fold i kv.1).isSome))) } (Destination.pointer i)) := by
  simp only [Response.Load]
  refine ⟨?_, ?_, ?_, ?_⟩
  · rintro (h | h) <;> rw [h] <;> rfl
  · intro h
    rw [h]
    rfl
  · intro v hv h1 h2
    rw [hv]
    cases v with
    | nil => exact absurd rfl h1
    | object ms => exact absurd rfl (h2 ms)
    | _ => rfl
  · intro ms hv
    rw [hv]
    obtain ⟨_, hval, herr⟩ := decodeObject_spec fold ms i
    obtain ⟨_, hval2, herr2⟩ := decodeObject_spec fold
      (ms.filter (fun kv => (fieldFor fold i kv.1).isSome)) i
    simp only [storeValue_flag_fits] at herr herr2
    rw [unmarshalStruct_object]
    refine ⟨?_, ?_, hval, ?_, ?_⟩
    · rw [← herr]
      cases (decodeObject fold i ms).2 <;> simp
    · cases (decodeObject fold i ms).2 <;> simp
    · intro n f hf hno
      rw [hval n, hf]
      have hnil : ms.filter (fun kv => fieldFor fold i kv.1 = some n) = [] := by
        rw [List.filter_eq_nil_iff]
        intro kv hkv
        simpa using hno kv hkv
      simp only [Option.map_some', hnil, storeAll, List.foldl_nil]
    · rw [unmarshalStruct_object]
      have hl : (decodeObject fold i ms).1 = (decodeObject fold i
          (ms.filter (fun kv => (fieldFor fold i kv.1).isSome))).1 := by
        apply List.ext_getElem?
        intro n
        rw [hval n, hval2 n, filter_known_filter]
      have hb : (decodeObject fold i ms).2 = (decodeObject fold i
          (ms.filter (fun kv => (fieldFor fold i kv.1).isSome))).2 := by
        have hiff : (decodeObject fold i ms).2 = false ↔ (decodeObject fold i
            (ms.filter (fun kv => (fieldFor fold i kv.1).isSome))).2 = false := by
          rw [herr, herr2]
          constructor
          · intro h kv hkv n f hfor hf
            exact h kv (List.mem_of_mem_filter hkv) n f hfor hf
          · intro h kv hkv n f hfor hf
            refine h kv ?_ n f hfor hf
            rw [List.mem_filter]
            exact ⟨hkv, by simp [hfor]⟩
        cases h1 : (decodeObject fold i ms).2 <;>
          cases h2 : (decodeObject fold i
            (ms.filter (fun kv => (fieldFor fold i kv.1).isSome))).2 <;> simp_all
      rw [hl, hb]

theorem Load_pointer_outcomes_witness :
    Response.Load foldName (failure "connection refused") (Destination.pointer nameStruct)
      = (nameStruct, some JsonError.badText) ∧
    Response.Load foldName { RawData := arrayData } (Destination.pointer nameStruct)
      = (nameStruct, some JsonError.typeMismatch) ∧
    (Response.Load foldName { RawData := aliceData } (Destination.pointer nameStruct)).2
      = none ∧
    (Response.Load foldName { RawData := aliceData } (Destination.pointer nameStruct)).1[0]?
      = some ⟨"name", true, FieldValue.string "Alice"⟩ ∧
    (Response.Load foldName { RawData := numberNameData } (Destination.pointer nameStruct)).2
      ≠ none :=
  ⟨(Load_pointer_outcomes foldName (failure "connection refused") nameStruct).1 (Or.inl rfl),
   (Load_pointer_outcomes foldName { RawData := arrayData } nameStruct).2.2.1
      (Value.array [Value.number "10", Value.number "20"]) rfl
      (by intro h; cases h) (by intro ms h; cases h),
   ((Load_pointer_outcomes foldName { RawData := aliceData } nameStruct).2.2.2
      _ rfl).1.mpr (by
        intro kv hkv n f hfor hf
        simp only [List.mem_cons, List.mem_singleton, List.not_mem_nil, or_false] at hkv
        rcases hkv with rfl | rfl
        · have h0 : fieldFor foldName nameStruct "name" = some 0 := by rfl
          rw [h0] at hfor
          cases hfor
          cases hf
          rfl
        · have h0 : fieldFor foldName nameStruct "age" = none := by rfl
          rw [h0] at hfor
          cases hfor),
   (((Load_pointer_outcomes foldName { RawData := aliceData } nameStruct).2.2.2
      _ rfl).2.2.1 0).trans (by rfl),
   fun hnone =>
     Bool.false_ne_true
       (((Load_pointer_outcomes foldName { RawData := numberNameData } nameStruct).2.2.2
          _ rfl).1.mp hnone ("name", Value.number "5") (List.mem_cons_self _ _) 0
          ⟨"name", true, FieldValue.string ""⟩ (by rfl) (by rfl))⟩

/-- C10 (counterexample): on the envelope of a failed call, whose raw data is
empty, `Load` into a struct passed by pointer returns an error, and it is a
syntax error, not a structural incompatibility; and on the array payload
`[10,20]` `Load` into a struct passed by value returns no error, although the
destination expects an object. -/
theorem Load_error_not_only_incompatibility :
    Response.Load foldName (failure "connection refused") (Destination.pointer nameStruct)
      = (nameStruct, some JsonError.badText) ∧
    JsonError.badText ≠ JsonError.typeMismatch ∧
    Response.Load foldName { RawData := arrayData } (Destination.byValue nameStruct)
      = (nameStruct, none) := by
  refine ⟨by rfl, by decide, by rfl⟩

/-- A struct in which two tagged fields share the JSON name `x`: the library
ignores both, so a member `x` is skipped, without a store and without an
error; when only one of the two is tagged, that one takes the member. -/
theorem Load_shared_name :
    Response.Load foldName { RawData := RawMessage.text (Value.object [("x", Value.number "5")]) }
      (Destination.pointer [⟨"x", true, FieldValue.string "a"⟩, ⟨"x", true, FieldValue.int 1⟩])
      = ([⟨"x", true, FieldValue.string "a"⟩, ⟨"x", true, FieldValue.int 1⟩], none) ∧
    Response.Load foldName { RawData := RawMessage.text (Value.object [("x", Value.number "5")]) }
      (Destination.pointer [⟨"x", false, FieldValue.string "a"⟩, ⟨"x", true, FieldValue.int 1⟩])
      = ([⟨"x", false, FieldValue.string "a"⟩, ⟨"x", true, FieldValue.int 5⟩], none) := by
  refine ⟨by rfl, by rfl⟩

end Ubersmithgo
